import Mathlib

/-!
Verification of the candata ingestion core against its specification.

The data model and operations below are shallow embeddings of the repository
source: `shared/typescript/src/constants.ts` (reference maps),
`supabase/migrations/009_pipeline_metadata.sql` (pipeline run tracking), and
the pipeline worker components (retry policy, staging cache, checkpointed bulk
loader, idempotent loader) whose behaviour the repository documents.
-/

set_option autoImplicit false

namespace Candata

/-! ## constants.ts — province and CMA reference maps

TypeScript `Record<string, string>` object literals are embedded as ordered
association lists; `recordGet` reproduces JavaScript property lookup on an
object built from an entry list, where a later entry with the same key
overwrites an earlier one (the semantics of both object literals and
`Object.fromEntries`). -/

/-- `PROVINCES` from `shared/typescript/src/constants.ts`: SGC code →
province/territory name. -/
def PROVINCES : List (String × String) := [
  ("10", "Newfoundland and Labrador"),
  ("11", "Prince Edward Island"),
  ("12", "Nova Scotia"),
  ("13", "New Brunswick"),
  ("24", "Quebec"),
  ("35", "Ontario"),
  ("46", "Manitoba"),
  ("47", "Saskatchewan"),
  ("48", "Alberta"),
  ("59", "British Columbia"),
  ("60", "Yukon"),
  ("61", "Northwest Territories"),
  ("62", "Nunavut")]

/-- `PROVINCE_ABBREVIATIONS` from `constants.ts`: SGC code → two-letter
abbreviation. -/
def PROVINCE_ABBREVIATIONS : List (String × String) := [
  ("10", "NL"),
  ("11", "PE"),
  ("12", "NS"),
  ("13", "NB"),
  ("24", "QC"),
  ("35", "ON"),
  ("46", "MB"),
  ("47", "SK"),
  ("48", "AB"),
  ("59", "BC"),
  ("60", "YT"),
  ("61", "NT"),
  ("62", "NU")]

/-- JavaScript object lookup over an entry list: the value of the last entry
bearing the requested key (later entries overwrite earlier ones). -/
def recordGet (entries : List (String × String)) (k : String) : Option String :=
  ((entries.filter (fun e => e.1 == k)).getLast?).map (fun e => e.2)

/-- `PROVINCE_NAME_TO_CODE = Object.fromEntries(Object.entries(PROVINCES).map(([code, name]) => [name, code]))`. -/
def PROVINCE_NAME_TO_CODE : List (String × String) :=
  PROVINCES.map (fun e => (e.2, e.1))

/-- `ABBREVIATION_TO_CODE = Object.fromEntries(Object.entries(PROVINCE_ABBREVIATIONS).map(([code, abbr]) => [abbr, code]))`. -/
def ABBREVIATION_TO_CODE : List (String × String) :=
  PROVINCE_ABBREVIATIONS.map (fun e => (e.2, e.1))

/-- `CMA_CODES` from `constants.ts`: CMA code → CMA name, 35 entries. -/
def CMA_CODES : List (String × String) := [
  ("001", "Toronto"),
  ("002", "Montréal"),
  ("003", "Vancouver"),
  ("004", "Calgary"),
  ("005", "Edmonton"),
  ("006", "Ottawa-Gatineau"),
  ("007", "Winnipeg"),
  ("008", "Québec"),
  ("009", "Hamilton"),
  ("010", "Kitchener-Cambridge-Waterloo"),
  ("011", "Abbotsford-Mission"),
  ("012", "Halifax"),
  ("013", "Oshawa"),
  ("014", "London"),
  ("015", "Victoria"),
  ("016", "St. Catharines-Niagara"),
  ("017", "Windsor"),
  ("018", "Saskatoon"),
  ("019", "Regina"),
  ("020", "Sherbrooke"),
  ("021", "St. John's"),
  ("022", "Barrie"),
  ("023", "Kelowna"),
  ("024", "Abbotsford-Mission"),
  ("025", "Greater Sudbury"),
  ("026", "Kingston"),
  ("027", "Saguenay"),
  ("028", "Trois-Rivières"),
  ("029", "Guelph"),
  ("030", "Moncton"),
  ("031", "Brantford"),
  ("032", "Thunder Bay"),
  ("033", "Saint John"),
  ("034", "Peterborough"),
  ("035", "Lethbridge")]

/-! ## 009_pipeline_metadata.sql — `duration_ms` generated column

Timestamps are embedded as integer microsecond counts (the resolution of
PostgreSQL `TIMESTAMPTZ`).  The generated column computes
`EXTRACT(EPOCH FROM (completed_at - started_at)) * 1000` — exact rational
arithmetic over `NUMERIC` — and stores it in an `INTEGER` column; the
`NUMERIC → INTEGER` cast rounds halves away from zero. -/

/-- PostgreSQL `NUMERIC → INTEGER` cast: round to the nearest integer, halves
away from zero. -/
def pgRoundToInt (q : ℚ) : ℤ :=
  if 0 ≤ q then ⌊q + 1 / 2⌋ else -⌊-q + 1 / 2⌋

/-- The `duration_ms` generated column of `pipeline_runs`
(`009_pipeline_metadata.sql`): `EXTRACT(EPOCH FROM (completed_at -
started_at)) * 1000`, cast to `INTEGER`.  Arguments are the two timestamps in
microseconds. -/
def duration_ms (started_at completed_at : ℤ) : ℤ :=
  pgRoundToInt (((completed_at : ℚ) - (started_at : ℚ)) / 1000000 * 1000)

/-! ## Retry policy — `utils/retry.py` (`@with_retry`)

The retry module itself is not part of the repository snapshot; only the
pipeline README documents it.  The definitions below are therefore modelled
from the specification (§4.1 Retry Policy, §7 error taxonomy). -/

/-- Modelled from the spec: the failure classes of §7 for the missing
`utils/retry.py` — connection reset, timeout, rate limit (429), malformed
payload, and an HTTP status code. -/
inductive FetchError where
  | connReset
  | timeout
  | rateLimited
  | malformed
  | status (code : ℕ)
  deriving DecidableEq

/-- Modelled from the spec: transient versus permanent classification for the
missing `utils/retry.py` — transient is connection reset, 5xx, timeout, rate
limit (429); permanent is a 4xx other than 429 and a malformed response. -/
def isTransient : FetchError → Bool
  | FetchError.connReset => true
  | FetchError.timeout => true
  | FetchError.rateLimited => true
  | FetchError.malformed => false
  | FetchError.status code =>
      (decide (500 ≤ code) && decide (code < 600)) || code == 429

/-- Result of a retry-wrapped operation: the surfaced outcome, how many
attempts fired, and the wait inserted before each attempt after the first. -/
structure RetryResult (α : Type) where
  outcome : Except FetchError α
  attemptsMade : ℕ
  waits : List ℕ

/-- Modelled from the spec: the attempt loop of the missing `utils/retry.py`.
`m` counts attempts already made (the next attempt is number `m + 1`, whose
result is `op (m + 1)`); `fuel` is the number of attempts still allowed.  A
success or a permanent error stops immediately; a transient error with
attempts remaining waits `d * 2 ^ m` (the backoff before attempt `m + 2`,
that is `d * 2 ^ (k - 2)` for attempt `k`) and retries. -/
def retryLoop {α : Type} (op : ℕ → Except FetchError α) (d m fuel : ℕ) :
    RetryResult α :=
  match fuel with
  | 0 => { outcome := Except.error FetchError.timeout, attemptsMade := 0, waits := [] }
  | fuel' + 1 =>
    match op (m + 1) with
    | Except.ok v => { outcome := Except.ok v, attemptsMade := 1, waits := [] }
    | Except.error e =>
      if isTransient e && fuel' != 0 then
        let r := retryLoop op d (m + 1) fuel'
        { outcome := r.outcome, attemptsMade := r.attemptsMade + 1,
          waits := d * 2 ^ m :: r.waits }
      else
        { outcome := Except.error e, attemptsMade := 1, waits := [] }

/-- Modelled from the spec: `with_retry(max_attempts, base_delay)` of the
missing `utils/retry.py` — runs the operation with at most `maxAttempts`
attempts, attempt 1 firing immediately. -/
def with_retry {α : Type} (maxAttempts baseDelay : ℕ)
    (op : ℕ → Except FetchError α) : RetryResult α :=
  retryLoop op baseDelay 0 maxAttempts

/-- A demonstration operation that always fails with a permanent 404. -/
def permOp : ℕ → Except FetchError ℕ :=
  fun _ => Except.error (FetchError.status 404)

/-- A demonstration operation that always fails with a transient timeout. -/
def transOp : ℕ → Except FetchError ℕ :=
  fun _ => Except.error FetchError.timeout

/-! ## Staging cache — `sources/statcan.py` DuckDB staging

The StatCan source module is not part of the repository snapshot; the README
documents its DuckDB staging cache (keyed by table PID, 24-hour TTL,
`use_cache=False` to force a fresh download).  The definitions are modelled
from the specification (§4.2 Staging Cache). -/

/-- A staging cache entry: stored payload and the time it was fetched. -/
structure CacheEntry where
  payload : String
  fetchedAt : ℕ
  deriving DecidableEq

/-- Cache state: entries keyed by `(source, resource_id)`. -/
abbrev CacheState : Type := List ((String × String) × CacheEntry)

/-- Lookup of the entry stored under a key. -/
def cacheLookup (st : CacheState) (k : String × String) : Option CacheEntry :=
  (st.find? (fun e => decide (e.1 = k))).map (fun e => e.2)

/-- Replace (or create) the entry stored under a key — the atomic swap of a
freshly fetched payload. -/
def cachePut (st : CacheState) (k : String × String) (v : CacheEntry) : CacheState :=
  (k, v) :: st.filter (fun e => !decide (e.1 = k))

/-- The default TTL of the staging cache: 24 hours, in seconds. -/
def defaultTtlSeconds : ℕ := 24 * 60 * 60

/-- Outcome of a read-through fetch: the payload returned, whether a network
call was issued, and the cache state afterwards. -/
structure FetchOutcome where
  payload : String
  networkCalled : Bool
  newState : CacheState

/-- Modelled from the spec: `fetch(source, resource_id, force_refresh)` of
the missing staging-cache module — on a hit younger than `ttl` with
`force_refresh = false` it returns the stored payload without a network
call; on a miss, after expiry, or under `force_refresh` it performs the
network fetch (whose payload is `net`), persists it under the key, and
returns it. -/
def fetchCached (st : CacheState) (src rid : String) (now ttl : ℕ)
    (forceRefresh : Bool) (net : String) : FetchOutcome :=
  match cacheLookup st (src, rid) with
  | some e =>
    if forceRefresh = false ∧ now - e.fetchedAt < ttl then
      { payload := e.payload, networkCalled := false, newState := st }
    else
      { payload := net, networkCalled := true,
        newState := cachePut st (src, rid) { payload := net, fetchedAt := now } }
  | none =>
    { payload := net, networkCalled := true,
      newState := cachePut st (src, rid) { payload := net, fetchedAt := now } }

/-- A demonstration cache holding one fresh entry for StatCan table
18-10-0004-01. -/
def demoCache : CacheState :=
  [(("statcan", "1810000401"), { payload := "cached", fetchedAt := 100 })]

/-! ## Checkpointed bulk loader — `stream_and_load`

The bulk loader module is not part of the repository snapshot.  The
definitions are modelled from the specification (§4.3 Checkpointed Bulk
Loader): a checkpoint records how many chunks are fully committed; resuming
skips exactly those chunks; the checkpoint is deleted on clean completion. -/

/-- Bulk-load state: the table contents so far and the persisted checkpoint
(`none` when no checkpoint exists). -/
structure BulkState (β : Type) where
  table : β
  checkpoint : Option ℕ

/-- Modelled from the spec: `stream_and_load` of the missing bulk-loader
module — reads the checkpoint if one exists, skips input up to the recorded
cursor, loads the remaining chunks in order, and deletes the checkpoint on
clean completion. -/
def streamAndLoad {α β : Type} (load : β → α → β) (chunks : List α)
    (s : BulkState β) : BulkState β :=
  { table := (chunks.drop (s.checkpoint.getD 0)).foldl load s.table,
    checkpoint := none }

/-- Modelled from the spec: a bulk run interrupted after `K` fully committed
chunks — the first `K` chunks are loaded and the checkpoint records `K`,
the last fully committed chunk. -/
def runPartially {α β : Type} (load : β → α → β) (chunks : List α) (init : β)
    (K : ℕ) : BulkState β :=
  { table := (chunks.take K).foldl load init, checkpoint := some K }

/-- Chunk loading instrumented to record the chunks applied, used to observe
which chunks a resumed run processes. -/
def appendLoad {α : Type} : List α → α → List α :=
  fun l c => l ++ [c]

/-! ## Idempotent loader — `loaders/supabase_loader.py`

The loader module is not part of the repository snapshot; the schema it
targets is: every destination table carries a unique conflict key
(`indicators ... ON CONFLICT (id) DO UPDATE` in `seed/indicators.sql`, the
`cmhc_housing_unique` constraint in `010_cmhc_housing.sql`).  The loader
behaviour is modelled from the specification (§4.6 Idempotent Loader, §7
idempotency-violation prevention). -/

/-- A normalized record or table row: its natural conflict key and its value
fields (collapsed into one field). -/
structure Row where
  key : String
  value : ℤ
  deriving DecidableEq

/-- The conflict keys of a table, in row order. -/
def rowKeys (table : List Row) : List String :=
  table.map (fun r => r.key)

/-- Modelled from the spec: the in-batch deduplication of the missing loader
module — duplicate conflict keys within one batch are resolved to one record
each, keeping the last-seen value for every key. -/
def dedupeByKey : List Row → List Row
  | [] => []
  | r :: rest =>
    if rest.any (fun x => x.key == r.key) then dedupeByKey rest
    else r :: dedupeByKey rest

/-- Modelled from the spec: one upsert of the missing loader module — a
record whose conflict key already exists overwrites that row's value fields
(`ON CONFLICT ... DO UPDATE`); otherwise the record is inserted as a new
row. -/
def upsertRow (table : List Row) (r : Row) : List Row :=
  if table.any (fun x => x.key == r.key) then
    table.map (fun x => if x.key == r.key then { x with value := r.value } else x)
  else
    table ++ [r]

/-- Modelled from the spec: `load(table, records, conflict_key)` of the
missing loader module — deduplicates the batch by conflict key, then upserts
every surviving record. -/
def loadRecords (table : List Row) (records : List Row) : List Row :=
  (dedupeByKey records).foldl upsertRow table

/-- The last record of a batch bearing a given conflict key (the last-seen
value the deduplication must keep), or `none` when the key never occurs. -/
def lastOcc : List Row → String → Option Row
  | [], _ => none
  | r :: rest, k =>
    match lastOcc rest k with
    | some x => some x
    | none => if r.key == k then some r else none

/-- A demonstration batch holding a duplicated conflict key. -/
def demoBatch : List Row :=
  [{ key := "a", value := 1 }, { key := "b", value := 2 }, { key := "a", value := 3 }]

/-- A demonstration table with one existing row. -/
def demoTable : List Row :=
  [{ key := "a", value := 0 }]

/-! ## Pipeline run state — `pipeline_runs`

The `status` enumeration and its CHECK constraint come from
`009_pipeline_metadata.sql`; the transition behaviour of the loader that
writes it is modelled from the specification (§3 PipelineRun, §4.6, §7). -/

/-- The four pipeline run statuses of the `pipeline_runs.status` CHECK
constraint. -/
inductive RunStatus where
  | running
  | success
  | partFailure
  | failure
  deriving DecidableEq

/-- The SQL text of each status, as stored in `pipeline_runs.status`. -/
def statusText : RunStatus → String
  | RunStatus.running => "running"
  | RunStatus.success => "success"
  | RunStatus.partFailure => "partial_failure"
  | RunStatus.failure => "failure"

/-- The value list of the CHECK constraint on `pipeline_runs.status`. -/
def allowedStatuses : List String :=
  ["running", "success", "partial_failure", "failure"]

/-- What a finished pipeline run observed: whether it raised before any batch
committed, and how many records loaded and were rejected. -/
structure RunOutcome where
  raisedBeforeCommit : Bool
  loaded : ℕ
  rejected : ℕ
  deriving DecidableEq

/-- Modelled from the spec: the terminal status the missing loader module
writes for a run (§4.6 and the §7 record-level validation rule) — `failure`
when the run raised before any batch committed, otherwise `success` when
nothing was rejected, `partial_failure` when something was rejected and
something loaded, and `failure` when everything was rejected and nothing
loaded. -/
def finalStatus (o : RunOutcome) : RunStatus :=
  if o.raisedBeforeCommit then RunStatus.failure
  else if o.rejected = 0 then RunStatus.success
  else if 0 < o.loaded then RunStatus.partFailure
  else RunStatus.failure

/-- A status is terminal when it is not `running`; terminal rows are
immutable. -/
def isTerminal (s : RunStatus) : Bool :=
  s != RunStatus.running

/-- Modelled from the spec: the only permitted status transition — a run is
created `running` and moves once to a terminal state. -/
def stepOk (s t : RunStatus) : Bool :=
  (s == RunStatus.running) && (t != RunStatus.running)

end Candata

namespace Candata

/-! ## Theorems for claims C8, C9, C10 -/

/-- Helper: the value of an integer point under `pgRoundToInt` is itself. -/
theorem pgRoundToInt_intCast (k : ℤ) : pgRoundToInt (k : ℚ) = k := by
  unfold pgRoundToInt
  by_cases h : (0 : ℚ) ≤ (k : ℚ)
  · rw [if_pos h, add_comm, Int.floor_add_int]
    norm_num
  · rw [if_neg h]
    have : -(k : ℚ) = ((-k : ℤ) : ℚ) := by push_cast; ring
    rw [this, add_comm, Int.floor_add_int]
    norm_num

/-- C8 counterexample: `CMA_CODES` is not injective — the distinct codes
`"011"` and `"024"` both map to `"Abbotsford-Mission"`. -/
theorem claim8_counterexample :
    ("011" : String) ≠ "024" ∧
    recordGet CMA_CODES "011" = recordGet CMA_CODES "024" ∧
    recordGet CMA_CODES "011" = some "Abbotsford-Mission" := by
  refine ⟨by decide, by rfl, by rfl⟩

/-- C8 (amended): `CMA_CODES` is injective except for the single duplicated
name `"Abbotsford-Mission"` (borne by codes `"011"` and `"024"`): any two
entries sharing a name either share their code or bear that one name. -/
theorem claim8_cma_codes_almost_injective
    (p q : String × String) (hp : p ∈ CMA_CODES) (hq : q ∈ CMA_CODES)
    (h : p.2 = q.2) : p.1 = q.1 ∨ p.2 = "Abbotsford-Mission" := by
  have hall : CMA_CODES.all (fun p => CMA_CODES.all (fun q =>
      !(p.2 == q.2) || (p.1 == q.1) || (p.2 == "Abbotsford-Mission"))) = true := by
    decide
  rw [List.all_eq_true] at hall
  have hq2 := hall p hp
  rw [List.all_eq_true] at hq2
  have := hq2 q hq
  simp only [Bool.or_eq_true, Bool.not_eq_true', beq_iff_eq, beq_eq_false_iff_ne,
    ne_eq] at this
  rcases this with (hne | hcode) | habb
  · exact absurd h hne
  · exact Or.inl hcode
  · exact Or.inr habb

/-- C8 witness: the amended statement applied to the Toronto entry paired
with itself. -/
theorem claim8_witness :
    (("001", "Toronto") ∈ CMA_CODES) ∧
    ((("001", "Toronto") : String × String).1 = ("001", "Toronto").1 ∨
      (("001", "Toronto") : String × String).2 = "Abbotsford-Mission") :=
  ⟨by decide,
    claim8_cma_codes_almost_injective ("001", "Toronto") ("001", "Toronto")
      (by decide) (by decide) rfl⟩

/-- C9: the derived inverse maps recover the original SGC code — for every
entry `(code, name)` of `PROVINCES`, `PROVINCE_NAME_TO_CODE[name] = code`,
and for every entry `(code, abbr)` of `PROVINCE_ABBREVIATIONS`,
`ABBREVIATION_TO_CODE[abbr] = code`. -/
theorem claim9_province_round_trip :
    (∀ p ∈ PROVINCES, recordGet PROVINCE_NAME_TO_CODE p.2 = some p.1) ∧
    (∀ p ∈ PROVINCE_ABBREVIATIONS, recordGet ABBREVIATION_TO_CODE p.2 = some p.1) := by
  constructor
  · decide
  · decide

/-- C9 witness: the round trip at Ontario, for both the full-name map and the
abbreviation map. -/
theorem claim9_witness :
    (("35", "Ontario") ∈ PROVINCES ∧
      recordGet PROVINCE_NAME_TO_CODE "Ontario" = some "35") ∧
    (("35", "ON") ∈ PROVINCE_ABBREVIATIONS ∧
      recordGet ABBREVIATION_TO_CODE "ON" = some "35") :=
  ⟨⟨by decide, claim9_province_round_trip.1 ("35", "Ontario") (by decide)⟩,
   ⟨by decide, claim9_province_round_trip.2 ("35", "ON") (by decide)⟩⟩

/-- C10 counterexample: with `started_at = 0` and `completed_at = 1500` µs the
stored `duration_ms` is `2`, while the elapsed time in seconds multiplied by
1000 is `3/2` — the `INTEGER` column rounds and cannot equal the fractional
value. -/
theorem claim10_counterexample :
    duration_ms 0 1500 = 2 ∧
    ((duration_ms 0 1500 : ℚ) ≠ ((1500 : ℚ) - 0) / 1000000 * 1000) := by
  have harg : (((1500 : ℤ) : ℚ) - ((0 : ℤ) : ℚ)) / 1000000 * 1000 = 3 / 2 := by
    norm_num
  have h2 : duration_ms 0 1500 = 2 := by
    unfold duration_ms pgRoundToInt
    rw [harg, if_pos (by norm_num : (0 : ℚ) ≤ 3 / 2)]
    have hsum : (3 / 2 + 1 / 2 : ℚ) = ((2 : ℤ) : ℚ) := by norm_num
    rw [hsum, Int.floor_intCast]
  refine ⟨h2, ?_⟩
  rw [h2]
  norm_num

/-- C10 (amended): whenever `completed_at - started_at` is a whole number of
milliseconds, the generated `duration_ms` column equals the elapsed time in
seconds multiplied by 1000 exactly (and equals the elapsed microseconds
divided by 1000); in general the column stores that product rounded to the
nearest integer, so it can never disagree with the two timestamps. -/
theorem claim10_duration_ms_consistent (s c : ℤ) (h : (1000 : ℤ) ∣ (c - s)) :
    (duration_ms s c : ℚ) = ((c : ℚ) - (s : ℚ)) / 1000000 * 1000 ∧
    duration_ms s c = (c - s) / 1000 := by
  obtain ⟨k, hk⟩ := h
  have harg : ((c : ℚ) - (s : ℚ)) / 1000000 * 1000 = (k : ℚ) := by
    have : (c : ℚ) - (s : ℚ) = ((1000 * k : ℤ) : ℚ) := by
      rw [← hk]; push_cast; ring
    rw [this]; push_cast; ring
  have hd : duration_ms s c = k := by
    unfold duration_ms
    rw [harg, pgRoundToInt_intCast]
  refine ⟨by rw [hd, harg], ?_⟩
  rw [hd, hk, Int.mul_ediv_cancel_left _ (by norm_num)]

/-! ### Retry loop lemmas -/

/-- Unfolding `retryLoop` when the current attempt succeeds. -/
theorem retryLoop_ok {α : Type} {op : ℕ → Except FetchError α} {d m fuel : ℕ}
    {v : α} (h : op (m + 1) = Except.ok v) :
    retryLoop op d m (fuel + 1) =
      { outcome := Except.ok v, attemptsMade := 1, waits := [] } := by
  simp [retryLoop, h]

/-- Unfolding `retryLoop` when the current attempt fails and no retry fires
(permanent error or no fuel left). -/
theorem retryLoop_stop {α : Type} {op : ℕ → Except FetchError α} {d m fuel : ℕ}
    {e : FetchError} (h : op (m + 1) = Except.error e)
    (hc : (isTransient e && fuel != 0) = false) :
    retryLoop op d m (fuel + 1) =
      { outcome := Except.error e, attemptsMade := 1, waits := [] } := by
  simp [retryLoop, h, hc]

/-- Unfolding `retryLoop` when the current attempt fails transiently and a
retry fires. -/
theorem retryLoop_retry {α : Type} {op : ℕ → Except FetchError α} {d m fuel : ℕ}
    {e : FetchError} (h : op (m + 1) = Except.error e)
    (hc : (isTransient e && fuel != 0) = true) :
    retryLoop op d m (fuel + 1) =
      { outcome := (retryLoop op d (m + 1) fuel).outcome,
        attemptsMade := (retryLoop op d (m + 1) fuel).attemptsMade + 1,
        waits := d * 2 ^ m :: (retryLoop op d (m + 1) fuel).waits } := by
  simp [retryLoop, h, hc]

/-- A fired retry had both a transient error and fuel remaining. -/
theorem retry_cond_split {e : FetchError} {fuel : ℕ}
    (hc : (isTransient e && fuel != 0) = true) :
    isTransient e = true ∧ 1 ≤ fuel := by
  simp only [Bool.and_eq_true, bne_iff_ne, ne_eq] at hc
  exact ⟨hc.1, by omega⟩

/-- The loop never makes more attempts than it has fuel. -/
theorem retryLoop_attempts_le {α : Type} (op : ℕ → Except FetchError α) (d : ℕ) :
    ∀ fuel m, (retryLoop op d m fuel).attemptsMade ≤ fuel := by
  intro fuel
  induction fuel with
  | zero => intro m; simp [retryLoop]
  | succ fuel ih =>
    intro m
    cases hop : op (m + 1) with
    | ok v =>
      rw [retryLoop_ok hop]
      exact Nat.succ_le_succ (Nat.zero_le fuel)
    | error e =>
      cases hc : isTransient e && fuel != 0 with
      | false =>
        rw [retryLoop_stop hop hc]
        exact Nat.succ_le_succ (Nat.zero_le fuel)
      | true =>
        rw [retryLoop_retry hop hc]
        have h2 := ih (m + 1)
        show (retryLoop op d (m + 1) fuel).attemptsMade + 1 ≤ fuel + 1
        omega

/-- With fuel available the loop makes at least one attempt. -/
theorem retryLoop_attempts_pos {α : Type} (op : ℕ → Except FetchError α) (d : ℕ) :
    ∀ fuel m, 1 ≤ fuel → 1 ≤ (retryLoop op d m fuel).attemptsMade := by
  intro fuel
  cases fuel with
  | zero => intro m h; omega
  | succ fuel =>
    intro m _
    cases hop : op (m + 1) with
    | ok v => rw [retryLoop_ok hop]
    | error e =>
      cases hc : isTransient e && fuel != 0 with
      | false => rw [retryLoop_stop hop hc]
      | true =>
        rw [retryLoop_retry hop hc]
        show 1 ≤ (retryLoop op d (m + 1) fuel).attemptsMade + 1
        omega

/-- The surfaced outcome is exactly the result of the last attempt fired. -/
theorem retryLoop_outcome_last {α : Type} (op : ℕ → Except FetchError α) (d : ℕ) :
    ∀ fuel m, 1 ≤ fuel →
      (retryLoop op d m fuel).outcome =
        op (m + (retryLoop op d m fuel).attemptsMade) := by
  intro fuel
  induction fuel with
  | zero => intro m h; omega
  | succ fuel ih =>
    intro m _
    cases hop : op (m + 1) with
    | ok v => rw [retryLoop_ok hop]; exact hop.symm
    | error e =>
      cases hc : isTransient e && fuel != 0 with
      | false => rw [retryLoop_stop hop hc]; exact hop.symm
      | true =>
        rw [retryLoop_retry hop hc]
        have hfuel := (retry_cond_split hc).2
        have hrec := ih (m + 1) hfuel
        show (retryLoop op d (m + 1) fuel).outcome =
          op (m + ((retryLoop op d (m + 1) fuel).attemptsMade + 1))
        rw [hrec]
        congr 1
        omega

/-- Every attempt that was followed by another attempt failed with a
transient error. -/
theorem retryLoop_mid_transient {α : Type} (op : ℕ → Except FetchError α) (d : ℕ) :
    ∀ fuel m i, i + 1 < (retryLoop op d m fuel).attemptsMade →
      ∃ e, op (m + 1 + i) = Except.error e ∧ isTransient e = true := by
  intro fuel
  induction fuel with
  | zero => intro m i h; simp [retryLoop] at h
  | succ fuel ih =>
    intro m i h
    cases hop : op (m + 1) with
    | ok v =>
      rw [retryLoop_ok hop] at h
      exact absurd (show i + 1 < 1 from h) (by omega)
    | error e =>
      cases hc : isTransient e && fuel != 0 with
      | false =>
        rw [retryLoop_stop hop hc] at h
        exact absurd (show i + 1 < 1 from h) (by omega)
      | true =>
        rw [retryLoop_retry hop hc] at h
        have h2 : i + 1 < (retryLoop op d (m + 1) fuel).attemptsMade + 1 := h
        cases i with
        | zero => exact ⟨e, hop, (retry_cond_split hc).1⟩
        | succ j =>
          have hj : j + 1 < (retryLoop op d (m + 1) fuel).attemptsMade := by omega
          have hrec := ih (m + 1) j hj
          have harith : m + 1 + 1 + j = m + 1 + (j + 1) := by omega
          rwa [harith] at hrec

/-- One wait is recorded before every attempt after the first. -/
theorem retryLoop_waits_length {α : Type} (op : ℕ → Except FetchError α) (d : ℕ) :
    ∀ fuel m, (retryLoop op d m fuel).waits.length =
      (retryLoop op d m fuel).attemptsMade - 1 := by
  intro fuel
  induction fuel with
  | zero => intro m; simp [retryLoop]
  | succ fuel ih =>
    intro m
    cases hop : op (m + 1) with
    | ok v => rw [retryLoop_ok hop]; rfl
    | error e =>
      cases hc : isTransient e && fuel != 0 with
      | false => rw [retryLoop_stop hop hc]; rfl
      | true =>
        rw [retryLoop_retry hop hc]
        have hfuel := (retry_cond_split hc).2
        have hpos := retryLoop_attempts_pos op d fuel (m + 1) hfuel
        have h2 := ih (m + 1)
        show (d * 2 ^ m :: (retryLoop op d (m + 1) fuel).waits).length =
          (retryLoop op d (m + 1) fuel).attemptsMade + 1 - 1
        rw [List.length_cons]
        omega

/-- The wait recorded at position `i` — the wait before attempt `m + i + 2` —
is `d * 2 ^ (m + i)`. -/
theorem retryLoop_waits_get {α : Type} (op : ℕ → Except FetchError α) (d : ℕ) :
    ∀ fuel m i, i < (retryLoop op d m fuel).waits.length →
      (retryLoop op d m fuel).waits[i]? = some (d * 2 ^ (m + i)) := by
  intro fuel
  induction fuel with
  | zero => intro m i h; simp [retryLoop] at h
  | succ fuel ih =>
    intro m i h
    cases hop : op (m + 1) with
    | ok v =>
      rw [retryLoop_ok hop] at h
      exact absurd (show i < 0 from h) (by omega)
    | error e =>
      cases hc : isTransient e && fuel != 0 with
      | false =>
        rw [retryLoop_stop hop hc] at h
        exact absurd (show i < 0 from h) (by omega)
      | true =>
        rw [retryLoop_retry hop hc] at h ⊢
        have h2 : i < (retryLoop op d (m + 1) fuel).waits.length + 1 := by
          have h3 : i < (d * 2 ^ m :: (retryLoop op d (m + 1) fuel).waits).length := h
          rw [List.length_cons] at h3
          exact h3
        show (d * 2 ^ m :: (retryLoop op d (m + 1) fuel).waits)[i]? =
          some (d * 2 ^ (m + i))
        cases i with
        | zero => simp
        | succ j =>
          have hj : j < (retryLoop op d (m + 1) fuel).waits.length := by omega
          have hrec := ih (m + 1) j hj
          have harith : m + 1 + j = m + (j + 1) := by omega
          rw [harith] at hrec
          simpa using hrec

/-- When every allowed attempt fails transiently, the loop uses all of its
fuel. -/
theorem retryLoop_exhaust {α : Type} (op : ℕ → Except FetchError α) (d : ℕ) :
    ∀ fuel m,
      (∀ j, m + 1 ≤ j → j ≤ m + fuel →
        ∃ e, op j = Except.error e ∧ isTransient e = true) →
      (retryLoop op d m fuel).attemptsMade = fuel := by
  intro fuel
  induction fuel with
  | zero => intro m _; simp [retryLoop]
  | succ fuel ih =>
    intro m hall
    obtain ⟨e, he, ht⟩ := hall (m + 1) (le_refl _) (by omega)
    cases fuel with
    | zero => rw [retryLoop_stop he (by simp)]
    | succ fuel' =>
      rw [retryLoop_retry he (by simp [ht])]
      show (retryLoop op d (m + 1) (fuel' + 1)).attemptsMade + 1 = fuel' + 1 + 1
      rw [ih (m + 1) (fun j h1 h2 => hall j (by omega) (by omega))]

/-- C3: an error classified as permanent (a 4xx other than 429, or a
malformed response) makes the retry-wrapped call fail immediately with zero
additional attempts, and only errors classified as transient (connection
reset, 5xx, timeout, rate limit) are ever retried. -/
theorem claim3_permanent_fails_fast {α : Type} (N d : ℕ)
    (op : ℕ → Except FetchError α) (hN : 1 ≤ N) :
    (∀ e, op 1 = Except.error e → isTransient e = false →
      (with_retry N d op).attemptsMade = 1 ∧
      (with_retry N d op).outcome = Except.error e) ∧
    (∀ i, i + 1 < (with_retry N d op).attemptsMade →
      ∃ e, op (1 + i) = Except.error e ∧ isTransient e = true) ∧
    isTransient (FetchError.status 404) = false ∧
    isTransient FetchError.malformed = false ∧
    isTransient FetchError.connReset = true ∧
    isTransient (FetchError.status 500) = true ∧
    isTransient FetchError.timeout = true ∧
    isTransient FetchError.rateLimited = true ∧
    isTransient (FetchError.status 429) = true := by
  obtain ⟨N', rfl⟩ : ∃ n, N = n + 1 := ⟨N - 1, by omega⟩
  refine ⟨?_, ?_, by decide, by decide, by decide, by decide, by decide,
    by decide, by decide⟩
  · intro e he hp
    have h1 : op (0 + 1) = Except.error e := by simpa using he
    unfold with_retry
    rw [retryLoop_stop h1 (by simp [hp])]
    exact ⟨rfl, rfl⟩
  · intro i h
    have := retryLoop_mid_transient op d (N' + 1) 0 i h
    simpa using this

/-- C3 witness: a permanent 404 on the first of three allowed attempts stops
the run at exactly one attempt. -/
theorem claim3_witness :
    (1 : ℕ) ≤ 3 ∧ (with_retry 3 1 permOp).attemptsMade = 1 :=
  ⟨by decide,
    ((claim3_permanent_fails_fast 3 1 permOp (by decide)).1
      (FetchError.status 404) rfl rfl).1⟩

/-- C4: attempt 1 fires immediately (a wait is recorded only before attempts
2 to n) and the wait at position `i` of the wait list — the wait before
attempt `i + 2` — is `d * 2 ^ i`, that is `d * 2 ^ (k - 2)` before attempt
`k`; the surfaced failure is the failure of the last attempt fired, and when
all `N` allowed attempts fail transiently the call makes exactly `N` attempts
and surfaces the `N`-th failure. -/
theorem claim4_backoff_schedule {α : Type} (N d : ℕ)
    (op : ℕ → Except FetchError α) (hN : 1 ≤ N) :
    (with_retry N d op).waits.length = (with_retry N d op).attemptsMade - 1 ∧
    (∀ i, i < (with_retry N d op).waits.length →
      (with_retry N d op).waits[i]? = some (d * 2 ^ i)) ∧
    (∀ e, (with_retry N d op).outcome = Except.error e →
      op (with_retry N d op).attemptsMade = Except.error e) ∧
    ((∀ j, 1 ≤ j → j ≤ N → ∃ e, op j = Except.error e ∧ isTransient e = true) →
      (with_retry N d op).attemptsMade = N ∧ (with_retry N d op).outcome = op N) := by
  refine ⟨retryLoop_waits_length op d N 0, ?_, ?_, ?_⟩
  · intro i h
    have := retryLoop_waits_get op d N 0 i h
    simpa using this
  · intro e he
    have hlast := retryLoop_outcome_last op d N 0 hN
    unfold with_retry at he ⊢
    rw [he] at hlast
    simpa using hlast.symm
  · intro hall
    have hA : (retryLoop op d 0 N).attemptsMade = N :=
      retryLoop_exhaust op d N 0 (fun j h1 h2 => hall j (by omega) (by omega))
    have hlast := retryLoop_outcome_last op d N 0 hN
    unfold with_retry
    refine ⟨hA, ?_⟩
    rw [hlast, hA]
    simp

/-- C4 witness: three transient timeouts with base delay 2 record one wait
before each of attempts 2 and 3. -/
theorem claim4_witness :
    (1 : ℕ) ≤ 3 ∧
    (with_retry 3 2 transOp).waits.length = (with_retry 3 2 transOp).attemptsMade - 1 :=
  ⟨by decide, (claim4_backoff_schedule 3 2 transOp (by decide)).1⟩

/-- C10 witness: a two-second run stores exactly 2000 ms. -/
theorem claim10_witness :
    (1000 : ℤ) ∣ (2000000 - 0) ∧
    (duration_ms 0 2000000 : ℚ) = ((2000000 : ℚ) - 0) / 1000000 * 1000 :=
  ⟨by norm_num, by
    have h := (claim10_duration_ms_consistent 0 2000000 (by norm_num)).1
    simpa using h⟩

/-! ### Staging cache (C5) -/

/-- Looking up the key just written by `cachePut` returns the new entry. -/
theorem cacheLookup_cachePut_self (st : CacheState) (k : String × String)
    (v : CacheEntry) : cacheLookup (cachePut st k v) k = some v := by
  simp [cacheLookup, cachePut, List.find?_cons_of_pos]

/-- C5: a fetch whose key holds an entry younger than the TTL with
`force_refresh = false` returns the stored payload with no network call and
an unchanged cache; on a miss, after expiry, or under `force_refresh`, a
network fetch is performed and its payload is persisted under the key and
returned. -/
theorem claim5_cache_ttl (st : CacheState) (src rid : String) (now ttl : ℕ)
    (force : Bool) (net : String) :
    (∀ e, cacheLookup st (src, rid) = some e → force = false →
      now - e.fetchedAt < ttl →
      fetchCached st src rid now ttl force net =
        { payload := e.payload, networkCalled := false, newState := st }) ∧
    ((cacheLookup st (src, rid) = none ∨ force = true ∨
      (∃ e, cacheLookup st (src, rid) = some e ∧ ¬(now - e.fetchedAt < ttl))) →
      (fetchCached st src rid now ttl force net).networkCalled = true ∧
      (fetchCached st src rid now ttl force net).payload = net ∧
      cacheLookup (fetchCached st src rid now ttl force net).newState (src, rid) =
        some { payload := net, fetchedAt := now }) := by
  constructor
  · intro e he hf htt
    simp [fetchCached, he, hf, htt]
  · intro h
    have hput := cacheLookup_cachePut_self st (src, rid)
      { payload := net, fetchedAt := now }
    rcases h with hnone | hforce | ⟨e, he, hexp⟩
    · simp [fetchCached, hnone, hput]
    · cases hlk : cacheLookup st (src, rid) with
      | none => simp [fetchCached, hlk, hput]
      | some e => simp [fetchCached, hlk, hforce, hput]
    · simp [fetchCached, he, hexp, hput]

/-- C5 witness: a fetch 100 seconds after the cached entry was stored, within
the default 24-hour TTL and without `force_refresh`, returns the cached
payload without touching the network. -/
theorem claim5_witness :
    cacheLookup demoCache ("statcan", "1810000401") =
      some { payload := "cached", fetchedAt := 100 } ∧
    fetchCached demoCache "statcan" "1810000401" 200 defaultTtlSeconds false "fresh" =
      { payload := "cached", networkCalled := false, newState := demoCache } :=
  ⟨by decide,
    (claim5_cache_ttl demoCache "statcan" "1810000401" 200 defaultTtlSeconds
      false "fresh").1 { payload := "cached", fetchedAt := 100 } (by decide) rfl
      (by decide)⟩

/-! ### Checkpointed bulk loader (C2) -/

/-- Folding `appendLoad` over chunks appends exactly those chunks. -/
theorem foldl_appendLoad {α : Type} :
    ∀ (l acc : List α), l.foldl appendLoad acc = acc ++ l := by
  intro l
  induction l with
  | nil => intro acc; simp
  | cons a l ih =>
    intro acc
    rw [List.foldl_cons, ih]
    simp [appendLoad]

/-- C2: resuming an interrupted bulk load from its checkpoint produces the
same final table as one uninterrupted run — the resumed run processes
exactly the chunks after the checkpoint, the interrupted run committed
exactly the chunks before it, together they cover every chunk exactly once —
and on clean completion the checkpoint is deleted. -/
theorem claim2_resume_correct {α β : Type} (load : β → α → β) (chunks : List α)
    (init : β) (K : ℕ) (_hK : K ≤ chunks.length) :
    (streamAndLoad load chunks (runPartially load chunks init K)).table =
      (streamAndLoad load chunks { table := init, checkpoint := none }).table ∧
    (streamAndLoad load chunks (runPartially load chunks init K)).checkpoint = none ∧
    (streamAndLoad load chunks { table := init, checkpoint := none }).checkpoint = none ∧
    (streamAndLoad appendLoad chunks
      { table := ([] : List α), checkpoint := some K }).table = chunks.drop K ∧
    chunks.take K ++ chunks.drop K = chunks := by
  refine ⟨?_, rfl, rfl, ?_, List.take_append_drop K chunks⟩
  · show (chunks.drop K).foldl load ((chunks.take K).foldl load init) =
      (chunks.drop 0).foldl load init
    rw [← List.foldl_append, List.take_append_drop, List.drop_zero]
  · show (chunks.drop K).foldl appendLoad [] = chunks.drop K
    rw [foldl_appendLoad]
    simp

/-- C2 witness: a three-chunk load interrupted after one committed chunk and
resumed reaches the same final table as the uninterrupted run. -/
theorem claim2_witness :
    (1 : ℕ) ≤ [10, 20, 30].length ∧
    (streamAndLoad Nat.add [10, 20, 30] (runPartially Nat.add [10, 20, 30] 0 1)).table =
      (streamAndLoad Nat.add [10, 20, 30] { table := 0, checkpoint := none }).table :=
  ⟨by decide, (claim2_resume_correct Nat.add [10, 20, 30] 0 1 (by decide)).1⟩

/-! ### Idempotent loader (C7, C1) -/

/-- `lastOcc` is `none` exactly when no record in the batch bears the key. -/
theorem lastOcc_eq_none_iff :
    ∀ (rs : List Row) (k : String),
      lastOcc rs k = none ↔ ∀ x ∈ rs, (x.key == k) = false := by
  intro rs k
  induction rs with
  | nil => simp [lastOcc]
  | cons r rest ih =>
    rw [lastOcc]
    cases hlo : lastOcc rest k with
    | some x =>
      simp only []
      constructor
      · intro h; exact absurd h (by simp)
      · intro h
        have := (ih.mpr (fun x hx => h x (List.mem_cons_of_mem r hx)))
        rw [this] at hlo
        exact absurd hlo (by simp)
    | none =>
      simp only []
      constructor
      · intro h
        intro x hx
        rcases List.mem_cons.mp hx with rfl | hx'
        · by_cases hk : (x.key == k) = true
          · rw [if_pos hk] at h; exact absurd h (by simp)
          · simpa using hk
        · exact ih.mp hlo x hx'
      · intro h
        rw [if_neg (by simp [h r (List.mem_cons_self r rest)])]

/-- Every record kept by the deduplication comes from the batch. -/
theorem dedupe_subset :
    ∀ (rs : List Row) (x : Row), x ∈ dedupeByKey rs → x ∈ rs := by
  intro rs
  induction rs with
  | nil => intro x h; simp [dedupeByKey] at h
  | cons r rest ih =>
    intro x h
    rw [dedupeByKey] at h
    by_cases hany : rest.any (fun y => y.key == r.key) = true
    · rw [if_pos hany] at h
      exact List.mem_cons_of_mem r (ih x h)
    · rw [if_neg hany] at h
      rcases List.mem_cons.mp h with rfl | h'
      · exact List.mem_cons_self x rest
      · exact List.mem_cons_of_mem r (ih x h')

/-- The deduplicated batch carries pairwise-distinct conflict keys. -/
theorem dedupe_keys_nodup : ∀ rs : List Row, (rowKeys (dedupeByKey rs)).Nodup := by
  intro rs
  induction rs with
  | nil => simp [dedupeByKey, rowKeys]
  | cons r rest ih =>
    rw [dedupeByKey]
    by_cases hany : rest.any (fun y => y.key == r.key) = true
    · rw [if_pos hany]; exact ih
    · rw [if_neg hany]
      rw [rowKeys, List.map_cons]
      refine List.nodup_cons.mpr ⟨?_, ih⟩
      intro hmem
      rcases List.mem_map.mp hmem with ⟨x, hx, hkey⟩
      have hx' := dedupe_subset rest x hx
      exact hany (List.any_eq_true.mpr ⟨x, hx', by simp [hkey]⟩)

/-- The record the deduplicated batch holds for a key is the last record of
the original batch bearing that key. -/
theorem find?_dedupe (rs : List Row) (k : String) :
    (dedupeByKey rs).find? (fun x => x.key == k) = lastOcc rs k := by
  induction rs with
  | nil => rfl
  | cons r rest ih =>
    rw [dedupeByKey, lastOcc]
    by_cases hany : rest.any (fun y => y.key == r.key) = true
    · rw [if_pos hany, ih]
      cases hlo : lastOcc rest k with
      | some x => rfl
      | none =>
        show (none : Option Row) = if (r.key == k) = true then some r else none
        by_cases hk : (r.key == k) = true
        · exfalso
          rcases List.any_eq_true.mp hany with ⟨x, hx, hxy⟩
          have hxk : (x.key == k) = true := by
            have h1 : x.key = r.key := by simpa using hxy
            have h2 : r.key = k := by simpa using hk
            simp [h1, h2]
          exact absurd ((lastOcc_eq_none_iff rest k).mp hlo x hx) (by simp [hxk])
        · rw [if_neg hk]
    · rw [if_neg hany]
      by_cases hk : (r.key == k) = true
      · rw [List.find?_cons_of_pos (dedupeByKey rest) hk]
        have hnone : lastOcc rest k = none := by
          refine (lastOcc_eq_none_iff rest k).mpr (fun x hx => ?_)
          by_cases hxk : (x.key == k) = true
          · exfalso
            have h1 : x.key = k := by simpa using hxk
            have h2 : r.key = k := by simpa using hk
            exact hany (List.any_eq_true.mpr ⟨x, hx, by simp [h1, h2]⟩)
          · simpa using hxk
        rw [hnone]
        show some r = if (r.key == k) = true then some r else none
        rw [if_pos hk]
      · rw [List.find?_cons_of_neg (dedupeByKey rest) hk, ih]
        cases hlo : lastOcc rest k with
        | some x => rfl
        | none =>
          show (none : Option Row) = if (r.key == k) = true then some r else none
          rw [if_neg hk]

/-- C7: the loader's in-batch deduplication resolves duplicate conflict keys
before the upsert — the deduplicated batch carries pairwise-distinct keys,
the record it keeps for each key is the last-seen record of the batch with
that key, and every kept record comes from the batch. -/
theorem claim7_in_batch_dedup (rs : List Row) (k : String) :
    (rowKeys (dedupeByKey rs)).Nodup ∧
    (dedupeByKey rs).find? (fun x => x.key == k) = lastOcc rs k ∧
    (∀ x, x ∈ dedupeByKey rs → x ∈ rs) :=
  ⟨dedupe_keys_nodup rs, find?_dedupe rs k, fun x hx => dedupe_subset rs x hx⟩

/-- C7 witness: in a batch writing key `"a"` twice, the kept record for
`"a"` is the last-seen one, and it is a record of the batch. -/
theorem claim7_witness :
    (dedupeByKey demoBatch).find? (fun x => x.key == "a") =
      some { key := "a", value := 3 } ∧
    ({ key := "a", value := 3 } : Row) ∈ demoBatch :=
  ⟨by
    rw [(claim7_in_batch_dedup demoBatch "a").2.1]
    decide,
   (claim7_in_batch_dedup demoBatch "a").2.2 { key := "a", value := 3 } (by decide)⟩

/-- A map that fixes every element of a list fixes the list. -/
theorem map_eq_self_of_forall {α : Type} (f : α → α) :
    ∀ l : List α, (∀ x ∈ l, f x = x) → l.map f = l := by
  intro l
  induction l with
  | nil => intro _; rfl
  | cons a l ih =>
    intro h
    rw [List.map_cons, h a (List.mem_cons_self a l),
      ih (fun x hx => h x (List.mem_cons_of_mem a hx))]

/-- Two maps agreeing on every element of a list agree on the list. -/
theorem map_congr_mem {α β : Type} (f g : α → β) :
    ∀ l : List α, (∀ x ∈ l, f x = g x) → l.map f = l.map g := by
  intro l
  induction l with
  | nil => intro _; rfl
  | cons a l ih =>
    intro h
    rw [List.map_cons, List.map_cons, h a (List.mem_cons_self a l),
      ih (fun x hx => h x (List.mem_cons_of_mem a hx))]

/-- Upserting leaves the key column unchanged on conflict and appends the new
key otherwise. -/
theorem rowKeys_upsert (table : List Row) (r : Row) :
    rowKeys (upsertRow table r) =
      if table.any (fun x => x.key == r.key) then rowKeys table
      else rowKeys table ++ [r.key] := by
  unfold upsertRow
  by_cases hany : table.any (fun x => x.key == r.key) = true
  · rw [if_pos hany, if_pos hany]
    unfold rowKeys
    rw [List.map_map]
    refine map_congr_mem _ _ table (fun x _ => ?_)
    simp only [Function.comp_apply]
    split_ifs <;> rfl
  · rw [if_neg hany, if_neg hany]
    simp [rowKeys]

/-- When no row of the table bears the key, the key is not in the key
column. -/
theorem key_notin_of_any_false {table : List Row} {k : String}
    (h : ¬table.any (fun x => x.key == k) = true) : k ∉ rowKeys table := by
  intro hmem
  rcases List.mem_map.mp hmem with ⟨x, hx, hkey⟩
  exact h (List.any_eq_true.mpr ⟨x, hx, by simp [hkey]⟩)

/-- Upserting preserves distinctness of the table's conflict keys. -/
theorem upsert_nodup {table : List Row} (r : Row)
    (h : (rowKeys table).Nodup) : (rowKeys (upsertRow table r)).Nodup := by
  rw [rowKeys_upsert]
  by_cases hany : table.any (fun x => x.key == r.key) = true
  · rw [if_pos hany]; exact h
  · rw [if_neg hany]
    rw [List.nodup_append]
    exact ⟨h, List.nodup_singleton _,
      by simpa [List.disjoint_singleton] using key_notin_of_any_false hany⟩

/-- A whole fold of upserts preserves distinctness of the conflict keys. -/
theorem foldl_upsert_nodup :
    ∀ (l table : List Row), (rowKeys table).Nodup →
      (rowKeys (l.foldl upsertRow table)).Nodup := by
  intro l
  induction l with
  | nil => intro table h; exact h
  | cons a l ih =>
    intro table h
    rw [List.foldl_cons]
    exact ih _ (upsert_nodup a h)

/-- In a table with distinct conflict keys, a key determines its row. -/
theorem row_key_inj :
    ∀ (table : List Row), (rowKeys table).Nodup →
      ∀ x ∈ table, ∀ y ∈ table, x.key = y.key → x = y := by
  intro table
  induction table with
  | nil => intro _ x hx; exact absurd hx (List.not_mem_nil x)
  | cons a t ih =>
    intro h x hx y hy hkey
    have h' := List.nodup_cons.mp (show (a.key :: rowKeys t).Nodup from h)
    rcases List.mem_cons.mp hx with rfl | hx' <;>
      rcases List.mem_cons.mp hy with rfl | hy'
    · rfl
    · exact absurd (List.mem_map.mpr ⟨y, hy', hkey.symm⟩) h'.1
    · exact absurd (List.mem_map.mpr ⟨x, hx', hkey⟩) h'.1
    · exact ih h'.2 x hx' y hy' hkey

/-- The upserted record is a row of the table afterwards. -/
theorem mem_upsert_self (table : List Row) (r : Row) : r ∈ upsertRow table r := by
  unfold upsertRow
  by_cases hany : table.any (fun x => x.key == r.key) = true
  · rw [if_pos hany]
    rcases List.any_eq_true.mp hany with ⟨x, hx, hxk⟩
    refine List.mem_map.mpr ⟨x, hx, ?_⟩
    rw [if_pos hxk]
    have hkey : x.key = r.key := by simpa using hxk
    cases r with
    | mk rk rv => cases x with
      | mk xk xv =>
        simp only [] at hkey
        simp [hkey]
  · rw [if_neg hany]
    simp

/-- Rows with a different conflict key are untouched by an upsert. -/
theorem mem_upsert_other {table : List Row} {x : Row} (r : Row)
    (hx : x ∈ table) (hne : x.key ≠ r.key) : x ∈ upsertRow table r := by
  unfold upsertRow
  by_cases hany : table.any (fun y => y.key == r.key) = true
  · rw [if_pos hany]
    refine List.mem_map.mpr ⟨x, hx, ?_⟩
    rw [if_neg (by simp [hne])]
  · rw [if_neg hany]
    exact List.mem_append_left _ hx

/-- A row survives a fold of upserts whose records all bear other keys. -/
theorem foldl_upsert_mem_preserve :
    ∀ (l : List Row) (table : List Row) (x : Row), x ∈ table →
      (∀ r ∈ l, r.key ≠ x.key) → x ∈ l.foldl upsertRow table := by
  intro l
  induction l with
  | nil => intro table x hx _; exact hx
  | cons a l ih =>
    intro table x hx hk
    rw [List.foldl_cons]
    refine ih _ x ?_ (fun r hr => hk r (List.mem_cons_of_mem a hr))
    exact mem_upsert_other a hx
      (fun h => hk a (List.mem_cons_self a l) h.symm)

/-- After folding a batch with pairwise-distinct conflict keys, every record
of the batch is a row of the table. -/
theorem foldl_upsert_mem :
    ∀ (l table : List Row), (rowKeys l).Nodup →
      ∀ r ∈ l, r ∈ l.foldl upsertRow table := by
  intro l
  induction l with
  | nil => intro table _ r hr; exact absurd hr (List.not_mem_nil r)
  | cons a l ih =>
    intro table h r hr
    have h' := List.nodup_cons.mp (show (a.key :: rowKeys l).Nodup from h)
    rw [List.foldl_cons]
    rcases List.mem_cons.mp hr with rfl | hr'
    · refine foldl_upsert_mem_preserve l (upsertRow table r) r
        (mem_upsert_self table r) (fun s hs hkey => ?_)
      exact h'.1 (List.mem_map.mpr ⟨s, hs, hkey⟩)
    · exact ih _ h'.2 r hr'

/-- Upserting a record that is already a row of a duplicate-free table leaves
the table unchanged. -/
theorem upsert_noop {table : List Row} {r : Row}
    (hn : (rowKeys table).Nodup) (hr : r ∈ table) : upsertRow table r = table := by
  unfold upsertRow
  rw [if_pos (List.any_eq_true.mpr ⟨r, hr, by simp⟩)]
  refine map_eq_self_of_forall _ _ (fun x hx => ?_)
  by_cases hk : (x.key == r.key) = true
  · rw [if_pos hk]
    have hxr : x = r := row_key_inj table hn x hx r hr (by simpa using hk)
    subst hxr
    rfl
  · rw [if_neg hk]

/-- Folding a batch whose records are all already rows of a duplicate-free
table changes nothing. -/
theorem foldl_upsert_noop :
    ∀ (l table : List Row), (rowKeys table).Nodup →
      (∀ r ∈ l, r ∈ table) → l.foldl upsertRow table = table := by
  intro l
  induction l with
  | nil => intro table _ _; rfl
  | cons a l ih =>
    intro table hn hmem
    rw [List.foldl_cons, upsert_noop hn (hmem a (List.mem_cons_self a l))]
    exact ih table hn (fun r hr => hmem r (List.mem_cons_of_mem a hr))

/-- C1: loading is idempotent per conflict key — against a table with
distinct conflict keys, running the same load a second time leaves the table
contents (rows and row count) unchanged, and an upsert whose conflict key
already exists overwrites in place, never growing the table. -/
theorem claim1_load_idempotent (table records : List Row)
    (hn : (rowKeys table).Nodup) :
    loadRecords (loadRecords table records) records = loadRecords table records ∧
    (loadRecords (loadRecords table records) records).length =
      (loadRecords table records).length ∧
    (∀ (t : List Row) (r : Row), t.any (fun x => x.key == r.key) = true →
      (upsertRow t r).length = t.length) := by
  have hn1 : (rowKeys (loadRecords table records)).Nodup :=
    foldl_upsert_nodup (dedupeByKey records) table hn
  have hmem : ∀ r ∈ dedupeByKey records, r ∈ loadRecords table records :=
    foldl_upsert_mem (dedupeByKey records) table (dedupe_keys_nodup records)
  have heq : loadRecords (loadRecords table records) records =
      loadRecords table records :=
    foldl_upsert_noop (dedupeByKey records) (loadRecords table records) hn1 hmem
  refine ⟨heq, by rw [heq], ?_⟩
  intro t r h
  unfold upsertRow
  rw [if_pos h]
  exact List.length_map t _

/-- C1 witness: re-loading a batch with a duplicated key into a one-row table
reproduces the same table. -/
theorem claim1_witness :
    (rowKeys demoTable).Nodup ∧
    loadRecords (loadRecords demoTable demoBatch) demoBatch =
      loadRecords demoTable demoBatch :=
  ⟨by decide, (claim1_load_idempotent demoTable demoBatch (by decide)).1⟩

/-! ### Pipeline run state machine (C6) -/

/-- C6 counterexample: the claimed biconditionals fail — a run that raised
nothing but had every record rejected (5 rejected, 0 loaded) is written as
`failure` although it never raised, and a run that raised before any batch
committed is written as `failure` although it rejected zero records (which
the claimed "success iff zero rejected" would call `success`). -/
theorem claim6_counterexample :
    (finalStatus { raisedBeforeCommit := false, loaded := 0, rejected := 5 } =
        RunStatus.failure ∧
      ({ raisedBeforeCommit := false, loaded := 0, rejected := 5 } :
        RunOutcome).raisedBeforeCommit = false) ∧
    (finalStatus { raisedBeforeCommit := true, loaded := 0, rejected := 0 } =
        RunStatus.failure ∧
      ({ raisedBeforeCommit := true, loaded := 0, rejected := 0 } :
        RunOutcome).rejected = 0) := by
  decide

/-- C6 (amended): every status is one of the four CHECK-constraint values; a
run is created `running` and moves exactly once to a terminal state, after
which no transition is permitted; the terminal state is `success` iff the run
did not raise and rejected nothing, `partial_failure` iff it did not raise,
rejected something and loaded something, and `failure` iff it raised before
any batch committed or rejected everything and loaded nothing. -/
theorem claim6_run_state_machine (o : RunOutcome) :
    statusText (finalStatus o) ∈ allowedStatuses ∧
    statusText RunStatus.running ∈ allowedStatuses ∧
    isTerminal (finalStatus o) = true ∧
    (finalStatus o = RunStatus.success ↔
      o.raisedBeforeCommit = false ∧ o.rejected = 0) ∧
    (finalStatus o = RunStatus.partFailure ↔
      o.raisedBeforeCommit = false ∧ o.rejected ≠ 0 ∧ 0 < o.loaded) ∧
    (finalStatus o = RunStatus.failure ↔
      o.raisedBeforeCommit = true ∨ (o.rejected ≠ 0 ∧ o.loaded = 0)) ∧
    (∀ s t : RunStatus, stepOk s t = true →
      s = RunStatus.running ∧ isTerminal t = true) ∧
    (∀ s t : RunStatus, isTerminal s = true → stepOk s t = false) := by
  obtain ⟨rb, ld, rj⟩ := o
  have hmem : ∀ s : RunStatus, statusText s ∈ allowedStatuses := by
    intro s
    cases s <;> simp [statusText, allowedStatuses]
  refine ⟨hmem _, hmem _, ?_, ?_, ?_, ?_, ?_, ?_⟩
  · cases rb <;> simp only [finalStatus] <;> split_ifs <;> rfl
  · cases rb <;> simp only [finalStatus] <;> split_ifs <;> simp_all
  · cases rb <;> simp only [finalStatus] <;> split_ifs <;> simp_all
  · cases rb <;> simp only [finalStatus] <;> split_ifs <;> simp_all
    omega
  · intro s t h
    cases s <;> cases t <;> simp_all [stepOk, isTerminal]
  · intro s t hs
    cases s <;> cases t <;> simp_all [stepOk, isTerminal]

/-- C6 witness: a run that raised nothing, loaded 3 records and rejected none
is written as `success`. -/
theorem claim6_witness :
    finalStatus { raisedBeforeCommit := false, loaded := 3, rejected := 0 } =
      RunStatus.success :=
  ((claim6_run_state_machine
      { raisedBeforeCommit := false, loaded := 3, rejected := 0 }).2.2.2.1).mpr
    ⟨rfl, rfl⟩

end Candata
